import Mathlib

/-!
Verification of the Intellifont font-resolver core.

A shallow embedding, in Lean 4, of the parts of the `font-resolver` Rust
workspace that the checked properties speak about:

* `font-normalizer/src/lib.rs` — font-name normalization,
* `font-similarity/src/lib.rs` — five-axis similarity scoring and tiering,
* `font-cache/src/lib.rs`     — the hybrid memory/disk cache,
* `font-compressor/src/lib.rs` — the compressed font-database codec.

Modelling conventions:

* Rust `String`/`&str` values are modelled as `List Char` (`Str` below); the
  Unicode-aware Rust character classes (`is_uppercase`, `is_alphabetic`,
  `to_lowercase`, …) are modelled by Lean's ASCII classifiers, which agree
  with Rust on the ASCII inputs the program (and all tests) deal in.
* Rust `f32`/`f64` similarity scores are modelled as exact rationals `ℚ`;
  the numeric constants of the source (`0.35`, `0.85`, …) become the exact
  rationals they denote.
* Machine integers (`u8`/`u16`/`u32`/`usize`) are modelled as `Nat`; the
  quantities involved (weights ≤ 900, sizes in KB) are far from any wrap.
* Stateful code (the cache) is modelled by explicit state passing; clock
  reads (`SystemTime::now`) become an explicit `now : Nat` argument
  (seconds), and lock acquisition is abstracted away (single-threaded
  semantics of the method bodies).
* The external `brotli` and `bincode` crates are not code of this
  repository; they enter the model as abstract (de)serialisation functions
  together with their documented round-trip contracts, stated as
  hypotheses where needed.
-/

/-- Rust strings are modelled as lists of characters. -/
abbrev Str := List Char

namespace StrOps

/-- Rust `str::to_lowercase` (ASCII fragment). -/
def lowerStr (s : Str) : Str := s.map Char.toLower

/-- Rust `str::starts_with` for string patterns. -/
def startsWith (p s : Str) : Bool := p.isPrefixOf s

/-- Rust `str::ends_with` for string patterns. -/
def endsWith (p s : Str) : Bool := p.isSuffixOf s

/-- Rust `str::contains` (substring occurrence, empty needle matches). -/
def containsSub (needle : Str) : Str → Bool
  | [] => needle.isEmpty
  | c :: rest => needle.isPrefixOf (c :: rest) || containsSub needle rest

/-- Rust `str::trim_matches` with a character predicate: strip matching
characters from both ends. -/
def trimChars (p : Char → Bool) (s : Str) : Str :=
  ((s.dropWhile p).reverse.dropWhile p).reverse

/-- Rust `str::split_whitespace`: whitespace-separated tokens, empties dropped. -/
def splitWs (s : Str) : List Str :=
  (s.foldr
    (fun c acc =>
      match acc with
      | [] => if c.isWhitespace then [[]] else [[c]]
      | g :: gs => if c.isWhitespace then [] :: g :: gs else (c :: g) :: gs)
    []).filter (fun g => !g.isEmpty)

/-- A regex `\w` word character (ASCII fragment). -/
def isWordChar (c : Char) : Bool := c.isAlphanum || c == '_'

/-- Case-insensitive prefix test against an (all-lowercase) pattern. -/
def ciPrefix : Str → Str → Bool
  | [], _ => true
  | _ :: _, [] => false
  | k :: ks, c :: cs => k == c.toLower && ciPrefix ks cs

end StrOps

open StrOps

/-! Section: Data model (`font-core/src/lib.rs`) -/

/-- Rust `font_core::FontStyle`. -/
inductive FontStyle where
  | Normal
  | Italic
  | Oblique
deriving DecidableEq, Repr

/-- Rust `font_core::FontFormat`. -/
inductive FontFormat where
  | Ttf
  | Otf
  | Woff
  | Woff2
  | Other
deriving DecidableEq, Repr

/-- Rust `font_core::FontMetrics` (`u16`/`i16` fields as `Nat`/`Int`). -/
structure FontMetrics where
  units_per_em : Nat
  ascender : Int
  descender : Int
  x_height : Int
  cap_height : Int
  average_width : Int
  max_advance_width : Nat
deriving DecidableEq, Repr

/-- Rust `font_core::LicenseInfo`. -/
structure LicenseInfo where
  name : Str
  url : Option Str
  allows_embedding : Bool
  allows_modification : Bool
  requires_attribution : Bool
  allows_commercial_use : Bool
deriving DecidableEq, Repr

/-- Rust `font_core::FontDescriptor`.  The Rust field `variable` is renamed
`variableFont` (`variable` is a Lean keyword); `path : PathBuf` is kept as a
string. -/
structure FontDescriptor where
  family : Str
  subfamily : Option Str
  postscript_name : Str
  full_name : Option Str
  path : Str
  format : FontFormat
  weight : Nat
  italic : Bool
  monospaced : Bool
  variableFont : Bool
  metrics : Option FontMetrics
  license : Option LicenseInfo
deriving DecidableEq, Repr

/-- Rust `font_core::FontRequest`. -/
structure FontRequest where
  original_name : Str
  normalized_name : Str
  family : Str
  weight : Nat
  style : FontStyle
  italic : Bool
  monospaced : Bool
deriving DecidableEq, Repr

/-- Rust `font_core::FontError`.  The claims only distinguish the variant, so
the `String`/`f64` payloads of the Rust enum are dropped; the Rust `Io`
variant is spelled `IoError` here. -/
inductive FontError where
  | IoError
  | Parse
  | NotFound
  | UnsupportedFormat
  | LicenseRestriction
  | InvalidFontName
  | PlatformNotSupported
  | CacheError
  | MemoryLimitExceeded
  | DiskLimitExceeded
deriving DecidableEq, Repr

/-! Section: Name normalizer (`font-normalizer/src/lib.rs`) -/

namespace FontNormalizer

/-- Rust `FontNormalizer::remove_subset_prefix`: strip a leading
`[A-Z]{6}+` PDF subset marker (regex `^[A-Z]{6}\+`). -/
def removeSubsetMarker (name : Str) : Str :=
  match name with
  | a :: b :: c :: d :: e :: f :: g :: rest =>
    if a.isUpper && b.isUpper && c.isUpper && d.isUpper && e.isUpper && f.isUpper
        && g == '+' then
      rest
    else
      name
  | _ => name

/-- The fixed alternatives of the encoding-suffix regex
`-(Identity|WinAnsi|MacRoman|Uni[A-Z]+|W1|…|W6|Com|Expert|Subset|It|Oblique)(-H)?$`. -/
def encAlts : List Str :=
  ["Identity", "WinAnsi", "MacRoman", "W1", "W2", "W3", "W4", "W5", "W6",
   "Com", "Expert", "Subset", "It", "Oblique"].map String.data

/-- Does `l` (the part after the leading `-`) match
`(alt)(-H)?$` for one of the regex alternatives? -/
def encAltMatch (l : Str) : Bool :=
  encAlts.any (fun a => l == a || l == a ++ ['-', 'H'])
    || (match l with
        | 'U' :: 'n' :: 'i' :: r =>
          (!r.isEmpty && r.all Char.isUpper)
            || (endsWith ['-', 'H'] r
                && !(r.dropLast.dropLast).isEmpty
                && (r.dropLast.dropLast).all Char.isUpper)
        | _ => false)

/-- Does the whole of `l` match the encoding-suffix regex? -/
def encMatch : Str → Bool
  | '-' :: rest => encAltMatch rest
  | _ => false

/-- Rust `Regex::replace` of the end-anchored encoding-suffix pattern: delete the
suffix starting at the leftmost position whose tail matches. -/
def encScan : Str → Str
  | [] => []
  | c :: rest => if encMatch (c :: rest) then [] else c :: encScan rest

/-- The no-hyphen suffix list of `remove_encoding_suffix`. -/
def encodingSuffixes : List Str :=
  ["MT", "PS", "PSMT", "Std", "Pro", "Regular", "Bold", "Italic"].map String.data

/-- Rust `FontNormalizer::remove_encoding_suffix`: regex pass, then strip the
first listed suffix that sits after a `-` or an uppercase character. -/
def removeEncodingSuffix (name : Str) : Str :=
  let afterHyphen := encScan name
  match encodingSuffixes.find? (fun suf =>
      endsWith suf afterHyphen
        && afterHyphen.length > suf.length
        && (let slice := afterHyphen.take (afterHyphen.length - suf.length)
            endsWith ['-'] slice
              || (match slice.getLast? with
                  | some c => c.isUpper
                  | none => false))) with
  | some suf => afterHyphen.take (afterHyphen.length - suf.length)
  | none => afterHyphen

/-- Rust `FontNormalizer::extract_weight_style`: keyword scan on the lowercase
string, in source priority order. -/
def extractWeightStyle (name : Str) : Nat × FontStyle × Bool :=
  let lower := lowerStr name
  let has := fun (k : String) => containsSub k.data lower
  let weight :=
    if has "thin" || has "hairline" then 100
    else if has "extralight" || has "ultralight" then 200
    else if has "light" then 300
    else if has "normal" || has "regular" || has "book" then 400
    else if has "medium" then 500
    else if has "semibold" || has "demibold" then 600
    else if has "bold" then 700
    else if has "extrabold" || has "ultrabold" then 800
    else if has "black" || has "heavy" then 900
    else 400
  let styleItalic :=
    if has "italic" then (FontStyle.Italic, true)
    else if has "oblique" then (FontStyle.Oblique, true)
    else (FontStyle.Normal, false)
  (weight, styleItalic.1, styleItalic.2)

/-- Helper for `split_camel_case`: emit the remaining characters, inserting a
hyphen at lower→upper and digit↔letter boundaries. -/
def splitCamelGo : Char → Str → Str
  | _, [] => []
  | prev, c :: rest =>
    (if (prev.isLower && c.isUpper)
        || (prev.isDigit && c.isAlpha)
        || (prev.isAlpha && c.isDigit) then
      ['-', c]
     else [c]) ++ splitCamelGo c rest

/-- Rust `FontNormalizer::split_camel_case`. -/
def splitCamelCase : Str → Str
  | [] => []
  | c :: rest => c :: splitCamelGo c rest

/-- One step of `Regex::replace_all` for the pattern `(?i)\b kw \b` with an
empty replacement.  `prevW` records whether the previous original character
was a word character (for the left word boundary); the fuel decreases on
every step (each step consumes at least one character). -/
def replaceWordGo (kw : Str) : Nat → Bool → Str → Str
  | 0, _, l => l
  | _ + 1, _, [] => []
  | fuel + 1, prevW, c :: rest =>
    if !kw.isEmpty && !prevW && ciPrefix kw (c :: rest)
        && (match (c :: rest).drop kw.length with
            | [] => true
            | d :: _ => !isWordChar d) then
      replaceWordGo kw fuel true ((c :: rest).drop kw.length)
    else
      c :: replaceWordGo kw fuel (isWordChar c) rest

/-- Rust `Regex::replace_all` of `(?i)\b kw \b` by the empty string, for an
all-lowercase, all-letter keyword `kw`. -/
def replaceWordAll (kw : Str) (s : Str) : Str :=
  replaceWordGo kw (s.length + 1) false s

/-- The keyword list stripped by `extract_family_name`. -/
def familyKeywords : List Str :=
  ["thin", "extralight", "ultralight", "light", "normal",
   "regular", "medium", "semibold", "demibold", "bold",
   "extrabold", "ultrabold", "black", "heavy", "italic",
   "oblique", "book", "hairline", "condensed", "expanded",
   "narrow", "wide", "mono", "typewriter", "console"].map String.data

/-- The residual format suffixes of `remove_remaining_suffixes`. -/
def remainingSuffixes : List Str :=
  ["MT", "PS", "PSMT", "Std", "Pro", "TT", "OT", "WOFF", "WOFF2"].map String.data

/-- The trim predicate used by `extract_family_name`. -/
def isTrimChar (c : Char) : Bool := c == '-' || c == ' ' || c == '_'

/-- Rust `FontNormalizer::remove_remaining_suffixes`: strip the first listed
suffix preceded by a non-alphanumeric character, then trim. -/
def removeRemainingSuffixes (name : Str) : Str :=
  let result :=
    match remainingSuffixes.find? (fun suf =>
        endsWith suf name
          && name.length > suf.length
          && (let pre := name.take (name.length - suf.length)
              !pre.isEmpty
                && (match pre.getLast? with
                    | some c => !c.isAlphanum
                    | none => true))) with
    | some suf => name.take (name.length - suf.length)
    | none => name
  trimChars isTrimChar result

/-- Rust `FontNormalizer::extract_family_name`. -/
def extractFamilyName (name : Str) : Str :=
  let r0 := splitCamelCase name
  let r1 := familyKeywords.foldl (fun acc kw => replaceWordAll kw acc) r0
  let r2 := trimChars isTrimChar r1
  removeRemainingSuffixes r2

/-- Dash-run collapsing for `normalize_family_name` (regex `-+` → `-`). -/
def squeezeDashes : Bool → Str → Str
  | _, [] => []
  | prevDash, c :: rest =>
    if c == '-' then
      if prevDash then squeezeDashes true rest
      else '-' :: squeezeDashes true rest
    else c :: squeezeDashes false rest

/-- Rust `FontNormalizer::normalize_family_name`: lowercase, spaces/underscores
to `-`, drop characters outside `[a-z0-9-]`, collapse `-` runs, trim `-`. -/
def normalizeFamilyName (name : Str) : Str :=
  let r := lowerStr name
  let r := r.map (fun c => if c == ' ' || c == '_' then '-' else c)
  let r := r.filter (fun c => c.isLower || c.isDigit || c == '-')
  let r := squeezeDashes false r
  trimChars (· == '-') r

/-- The monospace indicator scan of `FontNormalizer::normalize`. -/
def monoIndicator (l : Str) : Bool :=
  containsSub "mono".data l || containsSub "console".data l
    || containsSub "typewriter".data l || containsSub "courier".data l
    || containsSub "fixedsys".data l || containsSub "terminal".data l

/-- Rust `FontNormalizer::normalize`.  Note that the source always returns `Ok`,
and recomputes `style` from the `italic` flag alone. -/
def normalize (fontName : Str) : Except FontError FontRequest :=
  let withoutSubset := removeSubsetMarker fontName
  let withoutEncoding := removeEncodingSuffix withoutSubset
  let ws := extractWeightStyle withoutEncoding
  let family := extractFamilyName withoutEncoding
  let normalizedFamily := normalizeFamilyName family
  let monospaced := monoIndicator (lowerStr fontName)
  let familyMonospaced := monoIndicator (lowerStr family)
  .ok
    { original_name := fontName
      normalized_name := normalizedFamily
      family := normalizedFamily
      weight := ws.1
      style := if ws.2.2 then FontStyle.Italic else FontStyle.Normal
      italic := ws.2.2
      monospaced := monospaced || familyMonospaced }

end FontNormalizer

/-! Section: Similarity engine (`font-similarity/src/lib.rs`) -/

/-- Rust `font_compressor::FontCategory` (used by the similarity engine). -/
inductive FontCategory where
  | Serif
  | SansSerif
  | Monospace
  | Display
  | Handwriting
  | Decorative
  | Symbol
  | Other
deriving DecidableEq, Repr

/-- Rust `font_core::FontMatchScore`, scores as exact rationals. -/
structure FontMatchScore where
  overall : ℚ
  family : ℚ
  weight : ℚ
  style : ℚ
  monospaced : ℚ
  metrics : ℚ
deriving DecidableEq, Repr

/-- Rust `font_similarity::SimilarityDetails`. -/
structure SimilarityDetails where
  name_similarity : ℚ
  weight_similarity : ℚ
  style_similarity : ℚ
  category_similarity : ℚ
  metrics_similarity : ℚ
deriving DecidableEq, Repr

/-- Rust `font_similarity::MatchTier`. -/
inductive MatchTier where
  | Exact (score : ℚ)
  | Similar (score : ℚ)
  | Low (score : ℚ)
deriving DecidableEq, Repr

/-- Rust `MatchTier::from_score`. -/
def MatchTier.from_score (score : ℚ) : MatchTier :=
  if score ≥ 9/10 then .Exact score
  else if score ≥ 8/10 then .Similar score
  else .Low score

/-- Rust `font_similarity::FontSimilarityEngine`: the precomputed similarity
matrix, modelled as an association list in insertion order. -/
structure FontSimilarityEngine where
  precomputed_similarities : List (Str × List (Str × ℚ))
deriving DecidableEq, Repr

namespace FontSimilarityEngine

/-- Rust `FontSimilarityEngine::get_precomputed_similarity`. -/
def getPrecomputedSimilarity (eng : FontSimilarityEngine) (name1 name2 : Str) :
    Option ℚ :=
  (eng.precomputed_similarities.find? (fun p => p.1 == name1)).bind
    (fun p => (p.2.find? (fun q => q.1 == name2)).map (fun q => q.2))

/-- Rust `FontSimilarityEngine::calculate_name_similarity`. -/
def calculateNameSimilarity (name1 name2 : Str) : ℚ :=
  let l1 := lowerStr name1
  let l2 := lowerStr name2
  if l1 = l2 then 1
  else if containsSub l2 l1 || containsSub l1 l2 then 85/100
  else
    let words1 := splitWs l1
    let words2 := splitWs l2
    let common := (words1.filter (fun w => words2.contains w)).length
    let total := max words1.length words2.length
    if total > 0 then (common : ℚ) / (total : ℚ) else 0

/-- Rust `FontSimilarityEngine::calculate_weight_similarity`. -/
def calculateWeightSimilarity (weight1 weight2 : Nat) : ℚ :=
  let diff := ((weight1 : Int) - (weight2 : Int)).natAbs
  if diff = 0 then 1
  else if diff ≤ 100 then 8/10
  else if diff ≤ 200 then 6/10
  else if diff ≤ 300 then 4/10
  else 2/10

/-- Rust `FontSimilarityEngine::calculate_style_similarity`. -/
def calculateStyleSimilarity (italic1 italic2 : Bool) : ℚ :=
  if italic1 = italic2 then 1
  else if italic1 && !italic2 then 4/10
  else 7/10

/-- Rust `FontSimilarityEngine::detect_request_category`. -/
def detectRequestCategory (request : FontRequest) : FontCategory :=
  let nameLower := lowerStr request.family
  if request.monospaced then .Monospace
  else if containsSub "serif".data nameLower then .Serif
  else if containsSub "sans".data nameLower then .SansSerif
  else if containsSub "script".data nameLower
      || containsSub "hand".data nameLower then .Handwriting
  else if containsSub "display".data nameLower
      || containsSub "decorative".data nameLower then .Display
  else .SansSerif

/-- Rust `FontSimilarityEngine::detect_font_category`. -/
def detectFontCategory (font : FontDescriptor) : FontCategory :=
  let nameLower := lowerStr font.family
  if font.monospaced then .Monospace
  else if containsSub "serif".data nameLower then .Serif
  else if containsSub "sans".data nameLower then .SansSerif
  else if containsSub "script".data nameLower
      || containsSub "hand".data nameLower then .Handwriting
  else if containsSub "display".data nameLower
      || containsSub "decorative".data nameLower then .Display
  else .SansSerif

/-- Rust `FontSimilarityEngine::calculate_category_similarity`; the Rust `match`
arms are mirrored in order. -/
def calculateCategorySimilarity (request : FontRequest) (font : FontDescriptor) :
    ℚ :=
  let rc := detectRequestCategory request
  let fc := detectFontCategory font
  if rc = fc then 1
  else if rc = .Serif ∧ fc = .SansSerif then 3/10
  else if rc = .SansSerif ∧ fc = .Serif then 3/10
  else if rc = .Monospace ∧ request.monospaced ∧ ¬font.monospaced then 1/10
  else if fc = .Monospace ∧ ¬request.monospaced ∧ font.monospaced then 2/10
  else if rc = .Handwriting ∧ fc = .Display then 6/10
  else if rc = .Display ∧ fc = .Handwriting then 6/10
  else 4/10

/-- Rust `FontSimilarityEngine::calculate_metrics_similarity`. -/
def calculateMetricsSimilarity (_request : FontRequest) (font : FontDescriptor) :
    ℚ :=
  match font.metrics with
  | none => 7/10
  | some _ => 8/10

/-- Rust `FontSimilarityEngine::combine_scores` (the weight table 0.35 / 0.25 /
0.20 / 0.15 / 0.05 written out, as in the source's `HashMap`). -/
def combineScores (name weight style category metrics : ℚ)
    (requestedMono fontMono : Bool) : ℚ :=
  let baseScore := name * (35/100) + weight * (25/100) + style * (20/100)
    + category * (15/100) + metrics * (5/100)
  if requestedMono ≠ fontMono then baseScore * (7/10) else baseScore

/-- The non-precomputed branch of `calculate_comprehensive_similarity`. -/
def computedSimilarity (request : FontRequest) (font : FontDescriptor) :
    FontMatchScore × SimilarityDetails :=
  let nameSimilarity := calculateNameSimilarity request.family font.family
  let weightSimilarity := calculateWeightSimilarity request.weight font.weight
  let styleSimilarity := calculateStyleSimilarity request.italic font.italic
  let categorySimilarity := calculateCategorySimilarity request font
  let metricsSimilarity := calculateMetricsSimilarity request font
  let overall := combineScores nameSimilarity weightSimilarity styleSimilarity
    categorySimilarity metricsSimilarity request.monospaced font.monospaced
  (⟨overall, nameSimilarity, weightSimilarity, styleSimilarity,
      (if request.monospaced = font.monospaced then 1 else 0),
      metricsSimilarity⟩,
   ⟨nameSimilarity, weightSimilarity, styleSimilarity, categorySimilarity,
      metricsSimilarity⟩)

/-- Rust `FontSimilarityEngine::calculate_comprehensive_similarity`. -/
def calculateComprehensiveSimilarity (eng : FontSimilarityEngine)
    (request : FontRequest) (font : FontDescriptor) (usePrecomputed : Bool) :
    FontMatchScore × SimilarityDetails :=
  if usePrecomputed then
    match getPrecomputedSimilarity eng request.family font.family with
    | some precomputed =>
      (⟨precomputed, precomputed, 1, 1, 1, 1⟩, ⟨precomputed, 1, 1, 1, 1⟩)
    | none => computedSimilarity request font
  else computedSimilarity request font

end FontSimilarityEngine

/-! Section: spec-side reference definitions used by refinement-style claims -/

/-- Modelled from the spec's words (`§4.2 Name`), for comparison with the
source's `calculate_name_similarity`: Jaccard similarity (intersection size
over union size) of the whitespace-split word-token sets of the lowercased
names. -/
def specWordTokenJaccard (n1 n2 : Str) : ℚ :=
  let w1 := (splitWs (lowerStr n1)).dedup
  let w2 := (splitWs (lowerStr n2)).dedup
  let inter := (w1.filter (fun w => w ∈ w2)).length
  let unionSize := (w1 ++ w2.filter (fun w => w ∉ w1)).length
  if unionSize = 0 then 0 else (inter : ℚ) / (unionSize : ℚ)

/-- Modelled from the spec's words: Jaccard similarity of the character sets
of the lowercased names. -/
def specCharSetJaccard (n1 n2 : Str) : ℚ :=
  let c1 := (lowerStr n1).dedup
  let c2 := (lowerStr n2).dedup
  let inter := (c1.filter (fun c => c ∈ c2)).length
  let unionSize := (c1 ++ c2.filter (fun c => c ∉ c1)).length
  if unionSize = 0 then 0 else (inter : ℚ) / (unionSize : ℚ)

/-! Section: normalizer claims -/

set_option maxRecDepth 10000 in
/-- Claim C4: the spec (and the repository's own integration test) state
that normalizing `"ABCDEE+OpenSans-Bold"` yields family `"opensans"`,
weight 700, italic false.  The code instead strips the trailing `Bold`
before weight extraction and hyphenates the camel-case split, producing
family `"open-sans"` with weight 400.  This theorem evaluates the embedded
code at that input, exhibiting the divergence. -/
theorem normalize_opensans_fixture :
    FontNormalizer.normalize "ABCDEE+OpenSans-Bold".data =
      .ok { original_name := "ABCDEE+OpenSans-Bold".data
            normalized_name := "open-sans".data
            family := "open-sans".data
            weight := 400
            style := .Normal
            italic := false
            monospaced := false } := by
  rfl

/-- Claim C5 (counterexample): normalizing the empty string does not return
the `InvalidFontName` error; it returns `Ok` with an empty family. -/
theorem normalize_empty_is_ok :
    FontNormalizer.normalize [] =
      .ok { original_name := [], normalized_name := [], family := [],
            weight := 400, style := .Normal, italic := false,
            monospaced := false } := by
  rfl

/-- Claim C5 (amended): `normalize` never fails at all — it returns `Ok`
for every input, and an input that is empty after stripping yields a
`FontRequest` with an empty family rather than `InvalidFontName`. -/
theorem normalize_never_errors :
    (∀ s : Str, ∃ r : FontRequest, FontNormalizer.normalize s = .ok r) ∧
      (∃ r : FontRequest, FontNormalizer.normalize [] = .ok r ∧ r.family = []) :=
  ⟨fun _ => ⟨_, rfl⟩, ⟨_, rfl, rfl⟩⟩

/-- Claim C8 (counterexample): `"FooOblique"` contains `oblique` and not
`italic` (lowercased), yet `normalize` returns style tag `Italic`, not
`Oblique` — the `style` field is recomputed from the `italic` flag alone. -/
theorem normalize_oblique_style_not_oblique :
    containsSub "oblique".data (lowerStr "FooOblique".data) = true ∧
    containsSub "italic".data (lowerStr "FooOblique".data) = false ∧
    (FontNormalizer.normalize "FooOblique".data).toOption.map
        (fun r => (r.style, r.italic)) = some (FontStyle.Italic, true) ∧
    FontStyle.Italic ≠ FontStyle.Oblique := by
  decide

/-- Claim C8 (amended): when `oblique` (and not `italic`) still occurs in
the lowercased string after subset-prefix and encoding-suffix stripping,
`normalize` sets the italic flag, but the style tag it returns is `Italic`
(the normalizer collapses Oblique into Italic). -/
theorem normalize_oblique_sets_italic_style (s : Str)
    (hob : containsSub "oblique".data
        (lowerStr (FontNormalizer.removeEncodingSuffix
          (FontNormalizer.removeSubsetMarker s))) = true)
    (hit : containsSub "italic".data
        (lowerStr (FontNormalizer.removeEncodingSuffix
          (FontNormalizer.removeSubsetMarker s))) = false) :
    ∃ r : FontRequest, FontNormalizer.normalize s = .ok r ∧
      r.italic = true ∧ r.style = FontStyle.Italic := by
  refine ⟨_, rfl, ?_, ?_⟩ <;>
    simp [FontNormalizer.normalize, FontNormalizer.extractWeightStyle, hob, hit]

/-- Witness for the amended C8 theorem at the concrete input
`"FooOblique"`. -/
theorem normalize_oblique_sets_italic_style_witness :
    containsSub "oblique".data
        (lowerStr (FontNormalizer.removeEncodingSuffix
          (FontNormalizer.removeSubsetMarker "FooOblique".data))) = true ∧
    containsSub "italic".data
        (lowerStr (FontNormalizer.removeEncodingSuffix
          (FontNormalizer.removeSubsetMarker "FooOblique".data))) = false ∧
    ∃ r : FontRequest, FontNormalizer.normalize "FooOblique".data = .ok r ∧
      r.italic = true ∧ r.style = FontStyle.Italic :=
  ⟨by decide, by decide,
    normalize_oblique_sets_italic_style "FooOblique".data (by decide) (by decide)⟩

/-! Section: similarity claims -/

namespace FontSimilarityEngine

/-- The request "derived from" a descriptor: same family, weight, italic and
monospaced flag (claim C6's wording). -/
def selfRequest (font : FontDescriptor) : FontRequest :=
  { original_name := font.family
    normalized_name := font.family
    family := font.family
    weight := font.weight
    style := if font.italic then .Italic else .Normal
    italic := font.italic
    monospaced := font.monospaced }

theorem calculateNameSimilarity_refl (n : Str) : calculateNameSimilarity n n = 1 := by
  simp [calculateNameSimilarity]

theorem calculateWeightSimilarity_refl (w : Nat) :
    calculateWeightSimilarity w w = 1 := by
  simp [calculateWeightSimilarity]

theorem calculateStyleSimilarity_refl (b : Bool) :
    calculateStyleSimilarity b b = 1 := by
  simp [calculateStyleSimilarity]

theorem detectCategory_selfRequest (font : FontDescriptor) :
    detectRequestCategory (selfRequest font) = detectFontCategory font := rfl

theorem calculateCategorySimilarity_self (font : FontDescriptor) :
    calculateCategorySimilarity (selfRequest font) font = 1 := by
  simp [calculateCategorySimilarity, detectCategory_selfRequest font]

@[simp]
theorem selfRequest_family (font : FontDescriptor) :
    (selfRequest font).family = font.family := rfl

@[simp]
theorem selfRequest_weight (font : FontDescriptor) :
    (selfRequest font).weight = font.weight := rfl

@[simp]
theorem selfRequest_italic (font : FontDescriptor) :
    (selfRequest font).italic = font.italic := rfl

@[simp]
theorem selfRequest_monospaced (font : FontDescriptor) :
    (selfRequest font).monospaced = font.monospaced := rfl

theorem computedSimilarity_self_overall (font : FontDescriptor) :
    (computedSimilarity (selfRequest font) font).1.overall
      = 95/100 + calculateMetricsSimilarity (selfRequest font) font * (5/100) := by
  simp [computedSimilarity, combineScores, calculateNameSimilarity_refl,
    calculateWeightSimilarity_refl, calculateStyleSimilarity_refl,
    calculateCategorySimilarity_self]
  ring

theorem calculateMetricsSimilarity_ge (request : FontRequest)
    (font : FontDescriptor) :
    7/10 ≤ calculateMetricsSimilarity request font
      ∧ calculateMetricsSimilarity request font ≤ 8/10 := by
  cases h : font.metrics <;> simp [calculateMetricsSimilarity, h] <;> norm_num

theorem from_score_exact_of {s : ℚ} (h : 9/10 ≤ s) :
    MatchTier.from_score s = .Exact s := by
  unfold MatchTier.from_score
  rw [if_pos h]

end FontSimilarityEngine

/-- Claim C6: for every font descriptor X, scoring the request derived from
X (same family, weight, italic and monospaced flag) against X itself yields
an overall score of at least 0.9 and tier Exact — provided the precomputed
matrix has no (family, family) entry to short-circuit the computation (as
with the default empty matrix). -/
theorem self_match_is_exact (eng : FontSimilarityEngine) (usePre : Bool)
    (font : FontDescriptor)
    (hpre : eng.getPrecomputedSimilarity font.family font.family = none) :
    9/10 ≤ (eng.calculateComprehensiveSimilarity
        (FontSimilarityEngine.selfRequest font) font usePre).1.overall ∧
      MatchTier.from_score (eng.calculateComprehensiveSimilarity
          (FontSimilarityEngine.selfRequest font) font usePre).1.overall
        = .Exact (eng.calculateComprehensiveSimilarity
            (FontSimilarityEngine.selfRequest font) font usePre).1.overall := by
  have hcomp : eng.calculateComprehensiveSimilarity
      (FontSimilarityEngine.selfRequest font) font usePre
      = FontSimilarityEngine.computedSimilarity
          (FontSimilarityEngine.selfRequest font) font := by
    cases usePre <;>
      simp [FontSimilarityEngine.calculateComprehensiveSimilarity,
        FontSimilarityEngine.selfRequest] <;>
      simp [show eng.getPrecomputedSimilarity font.family font.family = none from hpre]
  have hmet := FontSimilarityEngine.calculateMetricsSimilarity_ge
    (FontSimilarityEngine.selfRequest font) font
  have hov := FontSimilarityEngine.computedSimilarity_self_overall font
  have hge : 9/10 ≤ (FontSimilarityEngine.computedSimilarity
      (FontSimilarityEngine.selfRequest font) font).1.overall := by
    rw [hov]
    linarith [hmet.1]
  rw [hcomp]
  exact ⟨hge, FontSimilarityEngine.from_score_exact_of hge⟩

/-- Witness for C6: a concrete italic bold descriptor scored against itself
with the default (empty-matrix) engine. -/
theorem self_match_is_exact_witness :
    FontSimilarityEngine.getPrecomputedSimilarity ⟨[]⟩ "Foo".data "Foo".data = none ∧
      (9/10 ≤ (FontSimilarityEngine.calculateComprehensiveSimilarity ⟨[]⟩
          (FontSimilarityEngine.selfRequest
            ⟨"Foo".data, none, "Foo".data, none, [], .Ttf, 700, true, false,
              false, none, none⟩)
          ⟨"Foo".data, none, "Foo".data, none, [], .Ttf, 700, true, false,
            false, none, none⟩ true).1.overall) :=
  ⟨rfl,
    (self_match_is_exact ⟨[]⟩ true
      ⟨"Foo".data, none, "Foo".data, none, [], .Ttf, 700, true, false,
        false, none, none⟩ rfl).1⟩

/-- Claim C7 (counterexample): for the families `"a b"` and `"b c"` — not
case-insensitively equal, neither containing the other — the code's name
score is 1/2 (common-token count over the larger token count) while the
spec's word-token Jaccard similarity is 1/3. -/
theorem name_similarity_not_jaccard :
    lowerStr "a b".data ≠ lowerStr "b c".data ∧
    containsSub (lowerStr "b c".data) (lowerStr "a b".data) = false ∧
    containsSub (lowerStr "a b".data) (lowerStr "b c".data) = false ∧
    FontSimilarityEngine.calculateNameSimilarity "a b".data "b c".data = 1/2 ∧
    specWordTokenJaccard "a b".data "b c".data = 1/3 ∧
    (1/2 : ℚ) ≠ 1/3 := by
  refine ⟨by decide, by decide, by decide, ?_, ?_, by norm_num⟩
  · have h : FontSimilarityEngine.calculateNameSimilarity "a b".data "b c".data
        = ((1 : Nat) : ℚ) / ((2 : Nat) : ℚ) := rfl
    rw [h]
    norm_num
  · have h : specWordTokenJaccard "a b".data "b c".data
        = ((1 : Nat) : ℚ) / ((3 : Nat) : ℚ) := rfl
    rw [h]
    norm_num

/-- Claim C7 (amended): for names that are not case-insensitively equal and
where neither contains the other, the name feature score is the number of
word tokens of the first name that occur among the second name's tokens,
divided by the larger of the two token counts (0 when both are empty); no
character-set fallback is applied. -/
theorem name_similarity_token_overlap (n1 n2 : Str)
    (hne : lowerStr n1 ≠ lowerStr n2)
    (hc1 : containsSub (lowerStr n2) (lowerStr n1) = false)
    (hc2 : containsSub (lowerStr n1) (lowerStr n2) = false) :
    FontSimilarityEngine.calculateNameSimilarity n1 n2 =
      if 0 < max (splitWs (lowerStr n1)).length (splitWs (lowerStr n2)).length then
        (((splitWs (lowerStr n1)).countP
            (fun w => (splitWs (lowerStr n2)).contains w) : Nat) : ℚ)
          / ((max (splitWs (lowerStr n1)).length (splitWs (lowerStr n2)).length : Nat) : ℚ)
      else 0 := by
  unfold FontSimilarityEngine.calculateNameSimilarity
  rw [if_neg hne, if_neg (by simp [hc1, hc2])]
  simp [List.countP_eq_length_filter]

/-- Witness for the amended C7 theorem at the concrete pair
`("a b", "b c")`. -/
theorem name_similarity_token_overlap_witness :
    lowerStr "a b".data ≠ lowerStr "b c".data ∧
    FontSimilarityEngine.calculateNameSimilarity "a b".data "b c".data =
      (if 0 < max (splitWs (lowerStr "a b".data)).length
          (splitWs (lowerStr "b c".data)).length then
        (((splitWs (lowerStr "a b".data)).countP
            (fun w => (splitWs (lowerStr "b c".data)).contains w) : Nat) : ℚ)
          / ((max (splitWs (lowerStr "a b".data)).length
              (splitWs (lowerStr "b c".data)).length : Nat) : ℚ)
      else 0) :=
  ⟨by decide,
    name_similarity_token_overlap "a b".data "b c".data (by decide) (by decide)
      (by decide)⟩

/-! Section: Hybrid cache (`font-cache/src/lib.rs`).  State is passed
explicitly; `SystemTime::now()` becomes a `now : Nat` argument (seconds);
the three locked containers are plain fields (single-threaded semantics). -/

namespace HybridFontCache

/-- Rust `font_cache::CacheEntry`; timestamps in seconds. -/
structure CacheEntry where
  font : FontDescriptor
  access_count : Nat
  last_accessed : Nat
  created_at : Nat
  is_pinned : Bool
  estimated_size_kb : Nat
deriving DecidableEq, Repr

/-- Content of a `.bin` file in the cache directory: a serialized cache
entry, the persisted pinned-name set (`pinned_fonts.bin`), or the persisted
access-count map (`access_counts.bin`).  `load_from_disk` only succeeds on
an entry file (bincode fails on the other two). -/
inductive DiskContent where
  | entryFile (e : CacheEntry)
  | pinnedFile (names : List Str)
  | accessFile (counts : List (Str × Nat))
deriving DecidableEq, Repr

/-- The cache state: the LRU list (most-recent first), the disk directory
(file stem, mtime, content — every file the cache writes is a `.bin` file),
the pinned set, the access counts, and the configured limits
(`HybridFontCache`'s fields). -/
structure CacheState where
  memory : List (Str × CacheEntry)
  diskFiles : List (Str × Nat × DiskContent)
  pinned_fonts : List Str
  access_counts : List (Str × Nat)
  memory_limit_bytes : Nat
  disk_limit_bytes : Nat
  auto_pin_threshold : Nat
deriving DecidableEq, Repr

/-- The LRU capacity hard-coded in `HybridFontCache::new`
(`LruCache::new(NonZeroUsize::new(1000))`), independent of the quotas. -/
def lruCapacity : Nat := 1000

/-- Rust `LruCache::put`: replace and move to front if the key is present;
otherwise push to the front, evicting the least-recently-used entry when
the cache is at capacity. -/
def lruPut (k : Str) (v : CacheEntry) (m : List (Str × CacheEntry)) :
    List (Str × CacheEntry) :=
  if m.any (fun p => p.1 == k) then
    (k, v) :: m.filter (fun p => p.1 ≠ k)
  else
    (k, v) :: (if m.length ≥ lruCapacity then m.dropLast else m)

/-- Rust `HybridFontCache::current_memory_usage`: summed size estimates (in
bytes) over the in-memory entries. -/
def memUsage (m : List (Str × CacheEntry)) : Nat :=
  (m.map (fun p => p.2.estimated_size_kb * 1024)).sum

/-- Rust `HybridFontCache::is_pinned`. -/
def isPinned (s : CacheState) (font_name : Str) : Bool :=
  s.pinned_fonts.contains font_name

/-- Rust `HybridFontCache::estimate_font_size_kb`: 50 KB base,
+100 KB if variable, +20 KB if metrics are present. -/
def estimateFontSizeKb (font : FontDescriptor) : Nat :=
  50 + (if font.variableFont then 100 else 0)
    + (if font.metrics.isSome then 20 else 0)

/-- Rust `HybridFontCache::estimate_disk_usage_fast`: memory entry count ×
50 KB × 2, never touching the filesystem. -/
def estimateDiskUsageFast (s : CacheState) : Nat :=
  s.memory.length * 50 * 1024 * 2

/-- Rust `std::fs::write` of `{stem}.bin`: overwrite the file if present,
create it otherwise. -/
def writeFile (files : List (Str × Nat × DiskContent)) (stem : Str)
    (mtime : Nat) (c : DiskContent) : List (Str × Nat × DiskContent) :=
  if files.any (fun f => f.1 == stem) then
    files.map (fun f => if f.1 == stem then (stem, mtime, c) else f)
  else
    files ++ [(stem, mtime, c)]

/-- Rust `HybridFontCache::put`. -/
def put (now : Nat) (font_name : Str) (font : FontDescriptor)
    (s : CacheState) : Except FontError CacheState :=
  let is_pinned := isPinned s font_name
  let estimated_size_kb := estimateFontSizeKb font
  let memory_needed := estimated_size_kb * 1024
  if memUsage s.memory + memory_needed > s.memory_limit_bytes then
    .error .MemoryLimitExceeded
  else if estimateDiskUsageFast s + memory_needed > s.disk_limit_bytes then
    .error .DiskLimitExceeded
  else
    let entry : CacheEntry :=
      ⟨font, 1, now, now, is_pinned, estimated_size_kb⟩
    .ok { s with
      memory := lruPut font_name entry s.memory
      diskFiles := writeFile s.diskFiles font_name now (.entryFile entry) }

/-- Rust `HybridFontCache::pin_font`: insert into the pinned set, persist it
to `pinned_fonts.bin`, and set the pin flag of a resident entry
(`get_mut` also promotes the entry). -/
def pin_font (now : Nat) (font_name : Str) (s : CacheState) : CacheState :=
  let pinned :=
    if s.pinned_fonts.contains font_name then s.pinned_fonts
    else font_name :: s.pinned_fonts
  let diskFiles := writeFile s.diskFiles "pinned_fonts".data now
    (.pinnedFile pinned)
  let memory :=
    match s.memory.find? (fun p => p.1 == font_name) with
    | some p => lruPut font_name { p.2 with is_pinned := true } s.memory
    | none => s.memory
  { s with pinned_fonts := pinned, diskFiles := diskFiles, memory := memory }

/-- Rust `HybridFontCache::get`: bump the access count (auto-pinning at the
threshold), then serve from memory (refreshing `last_accessed` and the LRU
order), else from disk (promoting into memory if the quota permits). -/
def get (now : Nat) (font_name : Str) (s : CacheState) :
    Option FontDescriptor × CacheState :=
  let count :=
    ((s.access_counts.find? (fun p => p.1 == font_name)).map
      (fun p => p.2)).getD 0 + 1
  let access_counts :=
    if s.access_counts.any (fun p => p.1 == font_name) then
      s.access_counts.map
        (fun p => if p.1 == font_name then (p.1, p.2 + 1) else p)
    else
      s.access_counts ++ [(font_name, 1)]
  let s1 := { s with access_counts := access_counts }
  let s2 :=
    if count ≥ s.auto_pin_threshold ∧ isPinned s font_name = false then
      pin_font now font_name s1
    else s1
  match s2.memory.find? (fun p => p.1 == font_name) with
  | some p =>
    let entry := { p.2 with last_accessed := now }
    (some entry.font, { s2 with memory := lruPut font_name entry s2.memory })
  | none =>
    match s2.diskFiles.find? (fun f => f.1 == font_name) with
    | some (_, _, .entryFile e) =>
      if memUsage s2.memory + e.estimated_size_kb * 1024
          ≤ s2.memory_limit_bytes then
        let entry := { e with last_accessed := now }
        (some entry.font,
          { s2 with memory := lruPut font_name entry s2.memory })
      else
        (some e.font, s2)
    | _ => (none, s2)

/-- The age threshold (seconds) of `cleanup_disk`: 7 days when aggressive,
30 days otherwise. -/
def cleanupThresholdSecs (aggressive : Bool) : Nat :=
  if aggressive then 7 * 24 * 60 * 60 else 30 * 24 * 60 * 60

/-- The memory-pass removal test of `cleanup`: aggressive removes entries
used only once; normal removes entries idle for more than 30 days
(`elapsed().unwrap_or_default()` is truncated `Nat` subtraction). -/
def shouldRemoveMem (now : Nat) (aggressive : Bool) (e : CacheEntry) : Bool :=
  if aggressive then e.access_count == 1
  else now - e.last_accessed > 30 * 24 * 60 * 60

/-- Rust `HybridFontCache::cleanup`: evict unpinned matching entries from
memory, then delete unpinned old `.bin` files from disk
(`cleanup_disk`), then persist the access counts
(`save_access_counts` rewrites `access_counts.bin`).  Returns the number
of removals and the new state. -/
def cleanup (now : Nat) (aggressive : Bool) (s : CacheState) :
    Nat × CacheState :=
  let keptMem := s.memory.filter
    (fun p => p.2.is_pinned || !(shouldRemoveMem now aggressive p.2))
  let removedMem := s.memory.length - keptMem.length
  let keptDisk := s.diskFiles.filter
    (fun f => isPinned s f.1
      || !(now - f.2.1 > cleanupThresholdSecs aggressive))
  let removedDisk := s.diskFiles.length - keptDisk.length
  let diskFiles := writeFile keptDisk "access_counts".data now
    (.accessFile s.access_counts)
  (removedMem + removedDisk,
    { s with memory := keptMem, diskFiles := diskFiles })

end HybridFontCache

namespace HybridFontCache

theorem memUsage_cons (p : Str × CacheEntry) (m : List (Str × CacheEntry)) :
    memUsage (p :: m) = p.2.estimated_size_kb * 1024 + memUsage m := by
  simp [memUsage]

theorem memUsage_filter_le (q : Str × CacheEntry → Bool)
    (m : List (Str × CacheEntry)) : memUsage (m.filter q) ≤ memUsage m := by
  induction m with
  | nil => simp [memUsage]
  | cons p t ih =>
    by_cases h : q p
    · rw [List.filter_cons_of_pos h, memUsage_cons, memUsage_cons]
      exact Nat.add_le_add_left ih _
    · rw [List.filter_cons_of_neg h, memUsage_cons]
      exact le_trans ih (Nat.le_add_left _ _)

theorem memUsage_dropLast_le (m : List (Str × CacheEntry)) :
    memUsage m.dropLast ≤ memUsage m := by
  induction m with
  | nil => simp
  | cons p t ih =>
    cases t with
    | nil => simp [memUsage]
    | cons q u =>
      rw [List.dropLast_cons₂, memUsage_cons, memUsage_cons]
      exact Nat.add_le_add_left ih _

theorem memUsage_lruPut_le (k : Str) (v : CacheEntry)
    (m : List (Str × CacheEntry)) :
    memUsage (lruPut k v m) ≤ v.estimated_size_kb * 1024 + memUsage m := by
  unfold lruPut
  by_cases h : m.any (fun p => p.1 == k)
  · rw [if_pos h, memUsage_cons]
    exact Nat.add_le_add_left (memUsage_filter_le _ _) _
  · rw [if_neg h]
    by_cases hl : m.length ≥ lruCapacity
    · rw [if_pos hl, memUsage_cons]
      exact Nat.add_le_add_left (memUsage_dropLast_le _) _
    · rw [if_neg hl, memUsage_cons]

end HybridFontCache

/-- Claim C2: `put` rejects with `MemoryLimitExceeded` when the summed
memory-entry size estimates plus the new entry's estimate exceed the memory
quota; past that check it rejects with `DiskLimitExceeded` when the cheap
disk-use estimate exceeds the disk quota; and after every successful `put`
the summed memory-entry size estimates still fit the memory quota. -/
theorem put_respects_quotas (now : Nat) (font_name : Str)
    (font : FontDescriptor) (s : HybridFontCache.CacheState) :
    (HybridFontCache.memUsage s.memory
          + HybridFontCache.estimateFontSizeKb font * 1024
        > s.memory_limit_bytes →
      HybridFontCache.put now font_name font s
        = .error .MemoryLimitExceeded) ∧
    (HybridFontCache.memUsage s.memory
          + HybridFontCache.estimateFontSizeKb font * 1024
        ≤ s.memory_limit_bytes →
      HybridFontCache.estimateDiskUsageFast s > s.disk_limit_bytes →
      HybridFontCache.put now font_name font s
        = .error .DiskLimitExceeded) ∧
    (∀ s', HybridFontCache.put now font_name font s = .ok s' →
      HybridFontCache.memUsage s'.memory ≤ s.memory_limit_bytes) := by
  refine ⟨?_, ?_, ?_⟩
  · intro h
    simp only [HybridFontCache.put]
    rw [if_pos h]
  · intro h1 h2
    simp only [HybridFontCache.put]
    rw [if_neg (by omega), if_pos (by omega)]
  · intro s' h
    simp only [HybridFontCache.put] at h
    by_cases h1 : HybridFontCache.memUsage s.memory
        + HybridFontCache.estimateFontSizeKb font * 1024
        > s.memory_limit_bytes
    · rw [if_pos h1] at h
      simp at h
    · rw [if_neg h1] at h
      by_cases h2 : HybridFontCache.estimateDiskUsageFast s
          + HybridFontCache.estimateFontSizeKb font * 1024
          > s.disk_limit_bytes
      · rw [if_pos h2] at h
        simp at h
      · rw [if_neg h2] at h
        have hs : s' = { s with
            memory := HybridFontCache.lruPut font_name
              ⟨font, 1, now, now, HybridFontCache.isPinned s font_name,
                HybridFontCache.estimateFontSizeKb font⟩ s.memory
            diskFiles := HybridFontCache.writeFile s.diskFiles font_name now
              (.entryFile ⟨font, 1, now, now,
                HybridFontCache.isPinned s font_name,
                HybridFontCache.estimateFontSizeKb font⟩) } :=
          (Except.ok.inj h).symm
        subst hs
        have := HybridFontCache.memUsage_lruPut_le font_name
          ⟨font, 1, now, now, HybridFontCache.isPinned s font_name,
            HybridFontCache.estimateFontSizeKb font⟩ s.memory
        simp only at this ⊢
        omega

/-- A plain (non-variable, metrics-free) descriptor used by concrete cache
scenarios; its size estimate is 50 KB. -/
def plainFont (famName : Str) : FontDescriptor :=
  ⟨famName, none, famName, none, [], .Ttf, 400, false, false, false, none, none⟩

/-- Concrete state for the C2 witness: empty cache with a zero memory
quota. -/
def c2sA : HybridFontCache.CacheState := ⟨[], [], [], [], 0, 0, 5⟩

/-- Concrete state for the C2 witness: one resident 50 KB entry, ample
memory quota, zero disk quota. -/
def c2sB : HybridFontCache.CacheState :=
  ⟨[("y".data, ⟨plainFont "y".data, 1, 0, 0, false, 50⟩)], [], [], [],
    1048576, 0, 5⟩

/-- Concrete state for the C2 witness: empty cache with ample quotas. -/
def c2sC : HybridFontCache.CacheState := ⟨[], [], [], [], 1048576, 1048576, 5⟩

/-- The state produced by a successful `put` of `"x"` into `c2sC`. -/
def c2sOk : HybridFontCache.CacheState :=
  ⟨[("x".data, ⟨plainFont "x".data, 1, 0, 0, false, 50⟩)],
    [("x".data, 0, .entryFile ⟨plainFont "x".data, 1, 0, 0, false, 50⟩)],
    [], [], 1048576, 1048576, 5⟩

/-- Witness for C2: both quota rejections and the post-`put` memory bound,
at concrete states. -/
theorem put_respects_quotas_witness :
    HybridFontCache.put 0 "x".data (plainFont "x".data) c2sA
        = .error .MemoryLimitExceeded ∧
      HybridFontCache.put 0 "x".data (plainFont "x".data) c2sB
        = .error .DiskLimitExceeded ∧
      HybridFontCache.memUsage c2sOk.memory ≤ c2sC.memory_limit_bytes :=
  ⟨(put_respects_quotas 0 "x".data (plainFont "x".data) c2sA).1 (by decide),
   (put_respects_quotas 0 "x".data (plainFont "x".data) c2sB).2.1
      (by decide) (by decide),
   (put_respects_quotas 0 "x".data (plainFont "x".data) c2sC).2.2 c2sOk rfl⟩

namespace HybridFontCache

theorem writeFile_preserves_stems (files : List (Str × Nat × DiskContent))
    (stem : Str) (m : Nat) (c : DiskContent) {n : Str} {t : Nat}
    {cc : DiskContent} (hmem : (n, t, cc) ∈ files) :
    ∃ t' c', (n, t', c') ∈ writeFile files stem m c := by
  unfold writeFile
  by_cases h : files.any (fun f => f.1 == stem)
  · rw [if_pos h]
    by_cases hn : n = stem
    · subst hn
      exact ⟨m, c, List.mem_map.mpr ⟨(n, t, cc), hmem, by simp⟩⟩
    · exact ⟨t, cc, List.mem_map.mpr ⟨(n, t, cc), hmem, by simp [hn]⟩⟩
  · rw [if_neg h]
    exact ⟨t, cc, List.mem_append_left _ hmem⟩

theorem writeFile_self_mem (files : List (Str × Nat × DiskContent))
    (stem : Str) (m : Nat) (c : DiskContent) :
    (stem, m, c) ∈ writeFile files stem m c := by
  unfold writeFile
  by_cases h : files.any (fun f => f.1 == stem)
  · rw [if_pos h]
    obtain ⟨f, hf, hbeq⟩ := List.any_eq_true.mp h
    exact List.mem_map.mpr ⟨f, hf, by simp [hbeq]⟩
  · rw [if_neg h]
    simp

end HybridFontCache

/-- Claim C3 (amended): after `pin(name)`, cleanup never deletes `name`'s
disk file (the disk pass consults the pinned set), and never evicts a
memory entry whose `is_pinned` flag is set; but the memory pass checks the
flag, not the set, so an entry re-promoted from a disk file written before
the pin carries a stale false flag and can still be evicted (see the
counterexample). -/
theorem cleanup_preserves_pinned (now : Nat) (aggressive : Bool)
    (name : Str) (s : HybridFontCache.CacheState)
    (hpin : HybridFontCache.isPinned s name = true) :
    (∀ e : HybridFontCache.CacheEntry, (name, e) ∈ s.memory →
      e.is_pinned = true →
      (name, e) ∈ (HybridFontCache.cleanup now aggressive s).2.memory) ∧
    (∀ t c, (name, t, c) ∈ s.diskFiles →
      ∃ t' c', (name, t', c')
        ∈ (HybridFontCache.cleanup now aggressive s).2.diskFiles) := by
  constructor
  · intro e hmem hflag
    simp only [HybridFontCache.cleanup]
    exact List.mem_filter.mpr ⟨hmem, by simp [hflag]⟩
  · intro t c hmem
    simp only [HybridFontCache.cleanup]
    apply HybridFontCache.writeFile_preserves_stems
    exact List.mem_filter.mpr ⟨hmem, by simp [hpin]⟩

/-- Concrete pinned resident entry for the amended-C3 witness. -/
def c3wEntry : HybridFontCache.CacheEntry :=
  ⟨plainFont "A".data, 1, 0, 0, true, 50⟩

/-- Concrete state for the amended-C3 witness: `"A"` pinned, resident, and
on disk. -/
def c3wState : HybridFontCache.CacheState :=
  ⟨[("A".data, c3wEntry)], [("A".data, 0, .entryFile c3wEntry)],
    ["A".data], [], 1048576, 1048576, 5⟩

/-- Witness for the amended C3 theorem: an aggressive cleanup much later
keeps the pinned entry in memory and its file on disk. -/
theorem cleanup_preserves_pinned_witness :
    ("A".data, c3wEntry)
        ∈ (HybridFontCache.cleanup 99999999 true c3wState).2.memory ∧
      ∃ t' c', ("A".data, t', c')
        ∈ (HybridFontCache.cleanup 99999999 true c3wState).2.diskFiles :=
  ⟨(cleanup_preserves_pinned 99999999 true "A".data c3wState (by decide)).1
      c3wEntry (by decide) (by decide),
   (cleanup_preserves_pinned 99999999 true "A".data c3wState (by decide)).2
      0 (.entryFile c3wEntry) (by decide)⟩

/-- Initial empty cache for the C3 counterexample trace (10 MB memory
quota, ~1 GB disk quota, auto-pin threshold 5). -/
def c3s0 : HybridFontCache.CacheState :=
  ⟨[], [], [], [], 10485760, 1048576000, 5⟩

/-- After `put("A")`: resident and on disk, unpinned, access count 1. -/
def c3s1 : HybridFontCache.CacheState :=
  (HybridFontCache.put 0 "A".data (plainFont "A".data) c3s0).toOption.getD c3s0

/-- After `cleanup(aggressive)`: `"A"` evicted from memory (it was used
once), but its disk file survives (age 0). -/
def c3s2 : HybridFontCache.CacheState :=
  (HybridFontCache.cleanup 0 true c3s1).2

/-- After `pin("A")`: the pinned set now holds `"A"`, but no memory entry
existed to receive the flag. -/
def c3s3 : HybridFontCache.CacheState :=
  HybridFontCache.pin_font 0 "A".data c3s2

/-- After `get("A")`: the disk entry is promoted back into memory carrying
its stale `is_pinned = false` flag. -/
def c3s4 : HybridFontCache.CacheState :=
  (HybridFontCache.get 0 "A".data c3s3).2

/-- Claim C3 (counterexample): in the trace `put A; cleanup(true); pin A;
get A`, the name `"A"` is pinned and resident, yet the next
`cleanup(true)` — a cleanup subsequent to `pin("A")` — evicts `"A"` from
the in-memory cache, because the promoted entry's `is_pinned` flag is the
stale value serialized before the pin. -/
theorem cleanup_evicts_pinned_after_promotion :
    HybridFontCache.isPinned c3s3 "A".data = true ∧
      c3s4.memory.map Prod.fst = ["A".data] ∧
      HybridFontCache.isPinned c3s4 "A".data = true ∧
      (HybridFontCache.cleanup 0 true c3s4).2.memory.map Prod.fst = [] := by
  decide

/-- Claim C9: the in-memory level holds at most 1000 entries regardless of
the memory quota.  A successful `put` of a fresh name into a cache already
holding 1000 entries — even far below quota — silently drops the
least-recently-used entry from memory (the new list is the new entry
followed by all but the last old entry, still of length 1000), while every
pre-existing disk file, the evicted entry's included, survives. -/
theorem put_at_capacity_evicts (now : Nat) (name : Str)
    (font : FontDescriptor) (s : HybridFontCache.CacheState)
    (hlen : s.memory.length = HybridFontCache.lruCapacity)
    (hmiss : s.memory.any (fun p => p.1 == name) = false)
    (hmem : HybridFontCache.memUsage s.memory
        + HybridFontCache.estimateFontSizeKb font * 1024
        ≤ s.memory_limit_bytes)
    (hdisk : HybridFontCache.estimateDiskUsageFast s
        + HybridFontCache.estimateFontSizeKb font * 1024
        ≤ s.disk_limit_bytes) :
    ∃ s', HybridFontCache.put now name font s = .ok s' ∧
      s'.memory = (name, ⟨font, 1, now, now, HybridFontCache.isPinned s name,
          HybridFontCache.estimateFontSizeKb font⟩) :: s.memory.dropLast ∧
      s'.memory.length = HybridFontCache.lruCapacity ∧
      (∀ stem t c, (stem, t, c) ∈ s.diskFiles →
        ∃ t' c', (stem, t', c') ∈ s'.diskFiles) := by
  have hok : HybridFontCache.put now name font s
      = .ok { s with
          memory := HybridFontCache.lruPut name
            ⟨font, 1, now, now, HybridFontCache.isPinned s name,
              HybridFontCache.estimateFontSizeKb font⟩ s.memory
          diskFiles := HybridFontCache.writeFile s.diskFiles name now
            (.entryFile ⟨font, 1, now, now, HybridFontCache.isPinned s name,
              HybridFontCache.estimateFontSizeKb font⟩) } := by
    simp only [HybridFontCache.put]
    rw [if_neg (by omega), if_neg (by omega)]
  have hlru : HybridFontCache.lruPut name
      ⟨font, 1, now, now, HybridFontCache.isPinned s name,
        HybridFontCache.estimateFontSizeKb font⟩ s.memory
      = (name, ⟨font, 1, now, now, HybridFontCache.isPinned s name,
          HybridFontCache.estimateFontSizeKb font⟩) :: s.memory.dropLast := by
    unfold HybridFontCache.lruPut
    rw [if_neg (by simp [hmiss]), if_pos (by rw [hlen])]
  have hcap : HybridFontCache.lruCapacity = 1000 := rfl
  refine ⟨_, hok, ?_, ?_, ?_⟩
  · exact hlru
  · show (HybridFontCache.lruPut name _ s.memory).length = _
    rw [hlru]
    simp only [List.length_cons, List.length_dropLast]
    omega
  · intro stem t c hmem'
    exact HybridFontCache.writeFile_preserves_stems _ _ _ _ hmem'

/-- The resident entry used a thousand times over in the C9 witness. -/
def c9entry : HybridFontCache.CacheEntry :=
  ⟨plainFont "a".data, 1, 0, 0, false, 50⟩

/-- A memory level holding exactly 1000 distinct keys
(`'a'` repeated 0, 1, …, 999 times). -/
def c9mem : List (Str × HybridFontCache.CacheEntry) :=
  (List.range 1000).map (fun i => (List.replicate i 'a', c9entry))

/-- A cache at LRU capacity but far below its 100 MB memory quota
(usage ≈ 51.2 MB) and 1000 MB disk quota. -/
def c9state : HybridFontCache.CacheState :=
  ⟨c9mem, [], [], [], 104857600, 1048576000, 5⟩

theorem c9mem_length : c9mem.length = 1000 := by
  simp [c9mem]

theorem c9mem_fresh_name : (c9mem.any (fun p => p.1 == "b".data)) = false := by
  rw [List.any_eq_false]
  intro p hp
  obtain ⟨i, _, rfl⟩ := List.mem_map.mp hp
  simp only
  cases i with
  | zero => decide
  | succ n =>
    rw [List.replicate_succ]
    intro hcon
    have : ('a' :: List.replicate n 'a' : Str) = "b".data :=
      by exact_mod_cast (beq_iff_eq.mp hcon)
    simp at this

theorem memUsage_map_const {α : Type} (l : List α) (key : α → Str)
    (e : HybridFontCache.CacheEntry) :
    HybridFontCache.memUsage (l.map (fun x => (key x, e)))
      = l.length * (e.estimated_size_kb * 1024) := by
  induction l with
  | nil => simp [HybridFontCache.memUsage]
  | cons a t ih =>
    rw [List.map_cons, HybridFontCache.memUsage_cons, ih, List.length_cons]
    ring

theorem c9mem_usage : HybridFontCache.memUsage c9mem = 51200000 := by
  unfold c9mem
  rw [memUsage_map_const]
  simp [c9entry]

set_option maxRecDepth 100000 in
/-- Witness for C9: pushing fresh name `"b"` into the 1000-entry,
under-quota cache succeeds and evicts the list's last entry. -/
theorem put_at_capacity_evicts_witness :
    c9state.memory.length = HybridFontCache.lruCapacity ∧
      (∃ s', HybridFontCache.put 7 "b".data (plainFont "b".data) c9state
          = .ok s' ∧
        s'.memory = ("b".data, ⟨plainFont "b".data, 1, 7, 7,
            HybridFontCache.isPinned c9state "b".data,
            HybridFontCache.estimateFontSizeKb (plainFont "b".data)⟩)
          :: c9state.memory.dropLast ∧
        s'.memory.length = HybridFontCache.lruCapacity ∧
        (∀ stem t c, (stem, t, c) ∈ c9state.diskFiles →
          ∃ t' c', (stem, t', c') ∈ s'.diskFiles)) :=
  ⟨c9mem_length,
    put_at_capacity_evicts 7 "b".data (plainFont "b".data) c9state
      c9mem_length c9mem_fresh_name
      (by rw [show c9state.memory = c9mem from rfl, c9mem_usage]; decide)
      (by rw [show HybridFontCache.estimateDiskUsageFast c9state
          = c9mem.length * 50 * 1024 * 2 from rfl, c9mem_length]; decide)⟩

namespace HybridFontCache

theorem writeFile_stem_free (files : List (Str × Nat × DiskContent))
    (stem : Str) (m : Nat) (c : DiskContent) (n : Str)
    (hne : n ≠ stem) (habs : ∀ f ∈ files, f.1 ≠ n) :
    ∀ f ∈ writeFile files stem m c, f.1 ≠ n := by
  unfold writeFile
  by_cases h : files.any (fun f => f.1 == stem)
  · rw [if_pos h]
    intro f hf
    obtain ⟨g, hg, rfl⟩ := List.mem_map.mp hf
    by_cases hgs : (g.1 == stem) = true
    · simp only [if_pos hgs]
      exact Ne.symm hne
    · simp only [if_neg hgs]
      exact habs g hg
  · rw [if_neg h]
    intro f hf
    rcases List.mem_append.mp hf with hf | hf
    · exact habs f hf
    · rw [List.mem_singleton.mp hf]
      exact Ne.symm hne

end HybridFontCache

/-- Claim C10: the disk pass of `cleanup` treats every `.bin` file in the
cache directory as a cache entry.  When the persisted metadata file
`pinned_fonts.bin` is older than the age threshold and its stem is not in
the pinned set, cleanup deletes it; afterwards `access_counts.bin` is
freshly rewritten by `save_access_counts`, but `pinned_fonts.bin` is not —
no file with that stem remains. -/
theorem cleanup_deletes_unpinned_metadata (now : Nat) (aggressive : Bool)
    (s : HybridFontCache.CacheState)
    (hp : HybridFontCache.isPinned s "pinned_fonts".data = false)
    (hex : ∃ t c, ("pinned_fonts".data, t, c) ∈ s.diskFiles)
    (hold : ∀ f ∈ s.diskFiles, f.1 = "pinned_fonts".data →
      now - f.2.1 > HybridFontCache.cleanupThresholdSecs aggressive) :
    (∀ f ∈ (HybridFontCache.cleanup now aggressive s).2.diskFiles,
      f.1 ≠ "pinned_fonts".data) ∧
    ("access_counts".data, now,
        HybridFontCache.DiskContent.accessFile s.access_counts)
      ∈ (HybridFontCache.cleanup now aggressive s).2.diskFiles := by
  constructor
  · simp only [HybridFontCache.cleanup]
    apply HybridFontCache.writeFile_stem_free
    · decide
    · intro f hf hfn
      obtain ⟨hf1, hf2⟩ := List.mem_filter.mp hf
      rw [hfn, hp] at hf2
      simp only [Bool.false_or, Bool.not_eq_true', decide_eq_false_iff_not]
        at hf2
      exact hf2 (hold f hf1 hfn)
  · simp only [HybridFontCache.cleanup]
    exact HybridFontCache.writeFile_self_mem _ _ _ _

/-- Concrete state for the C10 witness: both metadata files on disk with
mtime 0, the pinned set holding only the font name `"A"`. -/
def c10state : HybridFontCache.CacheState :=
  ⟨[], [("pinned_fonts".data, 0, .pinnedFile ["A".data]),
       ("access_counts".data, 0, .accessFile [("A".data, 3)])],
    ["A".data], [("A".data, 3)], 1048576, 1048576, 5⟩

/-- Witness for C10: an aggressive cleanup ten million seconds later erases
`pinned_fonts.bin` and rewrites `access_counts.bin`. -/
theorem cleanup_deletes_unpinned_metadata_witness :
    (∀ f ∈ (HybridFontCache.cleanup 10000000 true c10state).2.diskFiles,
      f.1 ≠ "pinned_fonts".data) ∧
    ("access_counts".data, 10000000,
        HybridFontCache.DiskContent.accessFile c10state.access_counts)
      ∈ (HybridFontCache.cleanup 10000000 true c10state).2.diskFiles :=
  cleanup_deletes_unpinned_metadata 10000000 true c10state (by decide)
    ⟨0, .pinnedFile ["A".data], by decide⟩
    (by
      intro f hf hfn
      rcases List.mem_cons.mp hf with rfl | hf
      · decide
      · rcases List.mem_cons.mp hf with rfl | hf
        · exact absurd hfn (by decide)
        · simp at hf)

/-! Section: Compressed font database codec (`font-compressor/src/lib.rs`).
The external `bincode`/`brotli` stages are abstract functions
(`serialize`/`compressBytes` and their inverses) passed as parameters;
`chrono::Utc::now().to_rfc3339()` and `CARGO_PKG_VERSION` become explicit
`nowStr`/`ver` arguments. -/

namespace FontCompressor

/-- Rust `font_compressor::CompressedMetrics`. -/
structure CompressedMetrics where
  units_per_em : Nat
  ascender : Int
  descender : Int
  x_height : Int
  cap_height : Int
  average_width : Int
deriving DecidableEq, Repr

/-- Rust `font_compressor::CompressedLicense`. -/
structure CompressedLicense where
  name : Str
  url : Str
  allows_embedding : Bool
  allows_modification : Bool
  requires_attribution : Bool
  allows_commercial_use : Bool
deriving DecidableEq, Repr

/-- Rust `font_compressor::CompressedFontData`; the `download_urls` hash map
becomes an association list. -/
structure CompressedFontData where
  family : Str
  postscript_name : Str
  weight : Nat
  italic : Bool
  monospaced : Bool
  metrics : Option CompressedMetrics
  license : CompressedLicense
  category : FontCategory
  similar_fonts : List Str
  download_urls : List (FontFormat × Str)
  file_size_kb : Nat
  popularity : Nat
deriving DecidableEq, Repr

/-- Rust `font_compressor::FontDatabaseMetadata`; the category histogram is
an association list in first-occurrence order. -/
structure FontDatabaseMetadata where
  version : Str
  font_count : Nat
  compressed_size_bytes : Nat
  original_size_bytes : Nat
  created_at : Str
  categories : List (FontCategory × Nat)
  include_full_data : Bool
deriving DecidableEq, Repr

/-- Rust `font_compressor::CompressedFontDatabase`. -/
structure CompressedFontDatabase where
  metadata : FontDatabaseMetadata
  fonts : List CompressedFontData
  similarity_matrix : Option (List (Str × List (Str × ℚ)))
deriving DecidableEq, Repr

/-- Rust `font_compressor::FontCompressor` (quality clamped by `new`). -/
structure FontCompressor where
  quality : Nat
  include_full_data : Bool
deriving DecidableEq, Repr

/-- Rust `FontCompressor::detect_category` (the compressor's own variant,
with the `times`/`arial`/… name hints). -/
def detect_category (font : FontDescriptor) : FontCategory :=
  let familyLower := lowerStr font.family
  if font.monospaced then .Monospace
  else if containsSub "serif".data familyLower
      || containsSub "times".data familyLower
      || containsSub "garamond".data familyLower
      || containsSub "georgia".data familyLower then .Serif
  else if containsSub "sans".data familyLower
      || containsSub "arial".data familyLower
      || containsSub "helvetica".data familyLower
      || containsSub "roboto".data familyLower then .SansSerif
  else if containsSub "script".data familyLower
      || containsSub "hand".data familyLower
      || containsSub "cursive".data familyLower then .Handwriting
  else if containsSub "display".data familyLower
      || containsSub "decorative".data familyLower
      || containsSub "fantasy".data familyLower then .Display
  else if containsSub "symbol".data familyLower
      || containsSub "dingbat".data familyLower
      || containsSub "wingding".data familyLower then .Symbol
  else .Other

/-- Rust `FontCompressor::estimate_file_size`: 50 KB base, +100 if
variable, +(weight−400)/100 above weight 400, floored at 20. -/
def estimate_file_size (font : FontDescriptor) : Nat :=
  max (50 + (if font.variableFont then 100 else 0)
    + (if font.weight > 400 then (font.weight - 400) / 100 else 0)) 20

/-- Rust `FontCompressor::font_to_compressed`. -/
def font_to_compressed (font : FontDescriptor) : CompressedFontData :=
  { family := font.family
    postscript_name := font.postscript_name
    weight := font.weight
    italic := font.italic
    monospaced := font.monospaced
    metrics := font.metrics.map (fun m =>
      ⟨m.units_per_em, m.ascender, m.descender, m.x_height, m.cap_height,
        m.average_width⟩)
    license :=
      { name := ((font.license.map (fun l => l.name)).getD [])
        url := ((font.license.bind (fun l => l.url)).getD [])
        allows_embedding :=
          ((font.license.map (fun l => l.allows_embedding)).getD false)
        allows_modification :=
          ((font.license.map (fun l => l.allows_modification)).getD false)
        requires_attribution :=
          ((font.license.map (fun l => l.requires_attribution)).getD false)
        allows_commercial_use :=
          ((font.license.map (fun l => l.allows_commercial_use)).getD false) }
    category := detect_category font
    similar_fonts := []
    download_urls := []
    file_size_kb := estimate_file_size font
    popularity := 50 }

/-- Rust `FontCompressor::calculate_original_size`. -/
def calculate_original_size (fonts : List FontDescriptor) : Nat :=
  (fonts.map (fun f => estimate_file_size f * 1024)).sum

/-- One `*categories.entry(cat).or_insert(0) += 1` step on the histogram. -/
def bumpCategory (m : List (FontCategory × Nat)) (cat : FontCategory) :
    List (FontCategory × Nat) :=
  if m.any (fun p => p.1 = cat) then
    m.map (fun p => if p.1 = cat then (p.1, p.2 + 1) else p)
  else m ++ [(cat, 1)]

/-- Rust `FontCompressor::categorize_fonts`. -/
def categorize_fonts (fonts : List CompressedFontData) :
    List (FontCategory × Nat) :=
  fonts.foldl (fun m f => bumpCategory m f.category) []

/-- Rust `FontCompressor::name_similarity` (the offline scorer): equality
1.0, containment 0.8, else character-set Jaccard. -/
def name_similarity (s1 s2 : Str) : ℚ :=
  let l1 := lowerStr s1
  let l2 := lowerStr s2
  if l1 = l2 then 1
  else if containsSub l2 l1 || containsSub l1 l2 then 8/10
  else
    let set1 := l1.dedup
    let set2 := l2.dedup
    let inter := (set1.filter (fun c => c ∈ set2)).length
    let unionSize := (set1 ++ set2.filter (fun c => c ∉ set1)).length
    if unionSize = 0 then 0 else (inter : ℚ) / (unionSize : ℚ)

/-- Rust `FontCompressor::calculate_font_similarity` (the offline scorer:
category 0.3, weight 0.2, italic 0.2, monospace 0.1, name 0.2). -/
def calculate_font_similarity (font1 font2 : CompressedFontData) : ℚ :=
  (if font1.category = font2.category then 3/10 else 0)
    + max (1 - (((font1.weight : Int) - font2.weight).natAbs : ℚ) / 800) 0
      * (2/10)
    + (if font1.italic = font2.italic then 2/10 else 0)
    + (if font1.monospaced = font2.monospaced then 1/10 else 0)
    + name_similarity font1.family font2.family * (2/10)

/-- Stable descending insertion by score (Rust's stable
`sort_by(|a, b| b.1.partial_cmp(&a.1))`). -/
def insertDesc (x : Str × ℚ) : List (Str × ℚ) → List (Str × ℚ)
  | [] => [x]
  | y :: t => if x.2 > y.2 then x :: y :: t else y :: insertDesc x t

/-- Stable descending sort by score. -/
def sortDesc (l : List (Str × ℚ)) : List (Str × ℚ) :=
  l.foldr insertDesc []

/-- A `HashMap::insert` step on the similarity matrix (overwrite). -/
def matInsert (m : List (Str × List (Str × ℚ))) (k : Str)
    (v : List (Str × ℚ)) : List (Str × List (Str × ℚ)) :=
  if m.any (fun p => p.1 == k) then
    m.map (fun p => if p.1 == k then (k, v) else p)
  else m ++ [(k, v)]

/-- Rust `FontCompressor::build_similarity_matrix`: for each font, score it
against every other font, keep pairs above 0.5, sort descending, keep the
top 10. -/
def build_similarity_matrix (fonts : List CompressedFontData) :
    List (Str × List (Str × ℚ)) :=
  fonts.enum.foldl
    (fun m p =>
      let sims := ((fonts.enum.filter (fun q => q.1 ≠ p.1)).map
        (fun q => (q.2.family, calculate_font_similarity p.2 q.2))).filter
          (fun r => r.2 > 1/2)
      matInsert m p.2.family ((sortDesc sims).take 10))
    []

/-- The de-duplication key of `remove_duplicates`:
`format!("{}-{}-{}", family.to_lowercase(), weight, italic)`. -/
def dupKey (font : FontDescriptor) : Str :=
  lowerStr font.family ++ ('-' :: (Nat.repr font.weight).data)
    ++ ('-' :: (if font.italic then "true".data else "false".data))

/-- The seen-set loop of `remove_duplicates` (first occurrence wins). -/
def removeDupsGo (seen : List Str) : List FontDescriptor → List FontDescriptor
  | [] => []
  | f :: rest =>
    if seen.contains (dupKey f) then removeDupsGo seen rest
    else f :: removeDupsGo (dupKey f :: seen) rest

/-- Rust `FontCompressor::remove_duplicates`. -/
def remove_duplicates (fonts : List FontDescriptor) : List FontDescriptor :=
  removeDupsGo [] fonts

/-- Steps 1–5 of `compress_font_database`: the database as first serialized,
with the placeholder `compressed_size_bytes = 0`. -/
def buildDatabaseFirst (c : FontCompressor) (ver nowStr : Str)
    (fonts : List FontDescriptor) (includeSim : Bool) :
    CompressedFontDatabase :=
  let uniqueFonts := remove_duplicates fonts
  let compressedFonts := uniqueFonts.map font_to_compressed
  { metadata :=
      { version := ver
        font_count := compressedFonts.length
        compressed_size_bytes := 0
        original_size_bytes := calculate_original_size uniqueFonts
        created_at := nowStr
        categories := categorize_fonts compressedFonts
        include_full_data := c.include_full_data }
    fonts := compressedFonts
    similarity_matrix :=
      if includeSim then some (build_similarity_matrix compressedFonts)
      else none }

/-- Step 8 of `compress_font_database`: patch the self-referential size. -/
def setCompressedSize (db : CompressedFontDatabase) (n : Nat) :
    CompressedFontDatabase :=
  { db with metadata := { db.metadata with compressed_size_bytes := n } }

/-- The database serialized by the second pass: the first-pass database with
`compressed_size_bytes` set to the length of the first-pass compressed
blob. -/
def buildDatabaseSecond (c : FontCompressor)
    (serialize : CompressedFontDatabase → List Nat)
    (compressBytes : List Nat → List Nat) (ver nowStr : Str)
    (fonts : List FontDescriptor) (includeSim : Bool) :
    CompressedFontDatabase :=
  setCompressedSize (buildDatabaseFirst c ver nowStr fonts includeSim)
    (compressBytes (serialize
      (buildDatabaseFirst c ver nowStr fonts includeSim))).length

/-- Rust `FontCompressor::compress_font_database`: two-pass build, returning
the second compressed stream. -/
def compress_font_database (c : FontCompressor)
    (serialize : CompressedFontDatabase → List Nat)
    (compressBytes : List Nat → List Nat) (ver nowStr : Str)
    (fonts : List FontDescriptor) (includeSim : Bool) : List Nat :=
  compressBytes (serialize
    (buildDatabaseSecond c serialize compressBytes ver nowStr fonts includeSim))

/-- Rust `FontCompressor::decompress_font_database`: brotli-decompress, then
bincode-decode. -/
def decompress_font_database
    (deserialize : List Nat → Option CompressedFontDatabase)
    (decompressBytes : List Nat → Option (List Nat)) (data : List Nat) :
    Option CompressedFontDatabase :=
  (decompressBytes data).bind deserialize

end FontCompressor

namespace FontCompressor

theorem removeDupsGo_of_nodup (fonts : List FontDescriptor) :
    ∀ seen, (∀ f ∈ fonts, dupKey f ∉ seen) → (fonts.map dupKey).Nodup →
      removeDupsGo seen fonts = fonts := by
  induction fonts with
  | nil => intro seen _ _; rfl
  | cons f rest ih =>
    intro seen hseen hnd
    rw [List.map_cons, List.nodup_cons] at hnd
    unfold removeDupsGo
    rw [if_neg (by simpa using hseen f (List.mem_cons_self f rest))]
    congr 1
    apply ih
    · intro g hg hmem
      rcases List.mem_cons.mp hmem with heq | hmem'
      · exact hnd.1 (heq ▸ List.mem_map_of_mem dupKey hg)
      · exact hseen g (List.mem_cons_of_mem f hg) hmem'
    · exact hnd.2

theorem remove_duplicates_of_nodup (fonts : List FontDescriptor)
    (h : (fonts.map dupKey).Nodup) : remove_duplicates fonts = fonts :=
  removeDupsGo_of_nodup fonts [] (by simp) h

end FontCompressor

/-- Claim C1 (amended): with the external codec stages as abstract
parameters satisfying their round-trip contracts, and for inputs in which
no two descriptors share a (lowercase family, weight, italic) key:
decompressing the output of `compress_font_database` yields exactly the
second-pass database, whose fonts list is the in-order conversion of the
input descriptors — but whose `metadata.compressed_size_bytes` is the byte
length of the FIRST compression pass (the blob built with the placeholder),
not necessarily that of the returned second-pass blob. -/
theorem compress_decompress_roundtrip (c : FontCompressor.FontCompressor)
    (serialize : FontCompressor.CompressedFontDatabase → List Nat)
    (deserialize : List Nat → Option FontCompressor.CompressedFontDatabase)
    (compressBytes : List Nat → List Nat)
    (decompressBytes : List Nat → Option (List Nat))
    (ver nowStr : Str) (fonts : List FontDescriptor) (includeSim : Bool)
    (hcodec : ∀ x, decompressBytes (compressBytes x) = some x)
    (hser : deserialize (serialize (FontCompressor.buildDatabaseSecond c
        serialize compressBytes ver nowStr fonts includeSim))
      = some (FontCompressor.buildDatabaseSecond c serialize compressBytes
          ver nowStr fonts includeSim))
    (hkeys : (fonts.map FontCompressor.dupKey).Nodup) :
    FontCompressor.decompress_font_database deserialize decompressBytes
        (FontCompressor.compress_font_database c serialize compressBytes
          ver nowStr fonts includeSim)
      = some (FontCompressor.buildDatabaseSecond c serialize compressBytes
          ver nowStr fonts includeSim) ∧
    (FontCompressor.buildDatabaseSecond c serialize compressBytes ver nowStr
        fonts includeSim).fonts
      = fonts.map FontCompressor.font_to_compressed ∧
    (FontCompressor.buildDatabaseSecond c serialize compressBytes ver nowStr
        fonts includeSim).metadata.compressed_size_bytes
      = (compressBytes (serialize (FontCompressor.buildDatabaseFirst c ver
          nowStr fonts includeSim))).length := by
  refine ⟨?_, ?_, rfl⟩
  · unfold FontCompressor.decompress_font_database
      FontCompressor.compress_font_database
    rw [hcodec]
    simpa using hser
  · show (FontCompressor.buildDatabaseFirst c ver nowStr fonts
        includeSim).fonts = _
    unfold FontCompressor.buildDatabaseFirst
    simp only
    rw [FontCompressor.remove_duplicates_of_nodup fonts hkeys]

/-- Witness for the amended C1 theorem: one descriptor, trivially lawful
codec stages (identity compression, constant deserialization at the built
database). -/
theorem compress_decompress_roundtrip_witness :
    (∀ x, (some (id x) : Option (List Nat)) = some x) ∧
      FontCompressor.decompress_font_database
          (fun _ => some (FontCompressor.buildDatabaseSecond ⟨11, true⟩
            (fun _ => []) id [] [] [plainFont "Arial".data] false))
          some
          (FontCompressor.compress_font_database ⟨11, true⟩ (fun _ => []) id
            [] [] [plainFont "Arial".data] false)
        = some (FontCompressor.buildDatabaseSecond ⟨11, true⟩ (fun _ => [])
            id [] [] [plainFont "Arial".data] false) ∧
      (FontCompressor.buildDatabaseSecond ⟨11, true⟩ (fun _ => []) id [] []
          [plainFont "Arial".data] false).fonts
        = [plainFont "Arial".data].map FontCompressor.font_to_compressed :=
  ⟨fun _ => rfl,
    (compress_decompress_roundtrip ⟨11, true⟩ (fun _ => [])
      (fun _ => some (FontCompressor.buildDatabaseSecond ⟨11, true⟩
        (fun _ => []) id [] [] [plainFont "Arial".data] false))
      id some [] [] [plainFont "Arial".data] false (fun _ => rfl) rfl
      (by simp)).1,
    (compress_decompress_roundtrip ⟨11, true⟩ (fun _ => [])
      (fun _ => some (FontCompressor.buildDatabaseSecond ⟨11, true⟩
        (fun _ => []) id [] [] [plainFont "Arial".data] false))
      id some [] [] [plainFont "Arial".data] false (fun _ => rfl) rfl
      (by simp)).2.1⟩

/-- Claim C1, formalized as stated: for every conforming pair of codec
stages and every duplicate-free input, the decompressed database's fonts
equal the in-order conversion AND its `metadata.compressed_size_bytes`
equals the byte length of the blob `compress_font_database` returned. -/
def C1ClaimAsStated : Prop :=
  ∀ (c : FontCompressor.FontCompressor)
    (serialize : FontCompressor.CompressedFontDatabase → List Nat)
    (deserialize : List Nat → Option FontCompressor.CompressedFontDatabase)
    (compressBytes : List Nat → List Nat)
    (decompressBytes : List Nat → Option (List Nat))
    (ver nowStr : Str) (fonts : List FontDescriptor) (includeSim : Bool),
    (∀ x, decompressBytes (compressBytes x) = some x) →
    deserialize (serialize (FontCompressor.buildDatabaseSecond c serialize
        compressBytes ver nowStr fonts includeSim))
      = some (FontCompressor.buildDatabaseSecond c serialize compressBytes
          ver nowStr fonts includeSim) →
    (fonts.map FontCompressor.dupKey).Nodup →
    ∃ db, FontCompressor.decompress_font_database deserialize
        decompressBytes (FontCompressor.compress_font_database c serialize
          compressBytes ver nowStr fonts includeSim) = some db ∧
      db.fonts = fonts.map FontCompressor.font_to_compressed ∧
      db.metadata.compressed_size_bytes
        = (FontCompressor.compress_font_database c serialize compressBytes
            ver nowStr fonts includeSim).length

/-- A conforming compressor whose output length depends on the payload:
`[0]` (the first-pass serialization) compresses to one byte, everything
else doubles. -/
def c1exCompress (x : List Nat) : List Nat :=
  if x = [0] then [9] else x ++ x

/-- The inverse of `c1exCompress`. -/
def c1exDecompress (y : List Nat) : Option (List Nat) :=
  if y = [9] then some [0] else some (y.take (y.length / 2))

/-- The first-pass database for the empty input. -/
def c1exDb1 : FontCompressor.CompressedFontDatabase :=
  FontCompressor.buildDatabaseFirst ⟨11, true⟩ [] [] [] false

/-- A serializer recording exactly the self-referential size field. -/
def c1exSer (db : FontCompressor.CompressedFontDatabase) : List Nat :=
  [db.metadata.compressed_size_bytes]

/-- The matching deserializer. -/
def c1exDeser (y : List Nat) :
    Option FontCompressor.CompressedFontDatabase :=
  some (FontCompressor.setCompressedSize c1exDb1 (y.headD 0))

theorem c1ex_codec_roundtrip :
    ∀ x, c1exDecompress (c1exCompress x) = some x := by
  intro x
  by_cases hx : x = [0]
  · subst hx; rfl
  · unfold c1exCompress c1exDecompress
    rw [if_neg hx, if_neg (by
      intro h
      have hlen := congrArg List.length h
      simp [List.length_append] at hlen
      omega)]
    congr 1
    rw [List.length_append]
    rw [show (x.length + x.length) / 2 = x.length by omega]
    exact List.take_left x x

/-- Claim C1 (counterexample): with the conforming codec above and the
empty font list, `compress_font_database` records first-pass length 1 in
the metadata but returns a blob of length 2, refuting the claim as
stated. -/
theorem compressed_size_claim_false : ¬ C1ClaimAsStated := by
  intro h
  obtain ⟨db, hdec, _hfonts, hsize⟩ :=
    h ⟨11, true⟩ c1exSer c1exDeser c1exCompress c1exDecompress [] [] [] false
      c1ex_codec_roundtrip rfl (by simp)
  rw [show FontCompressor.decompress_font_database c1exDeser c1exDecompress
      (FontCompressor.compress_font_database ⟨11, true⟩ c1exSer c1exCompress
        [] [] [] false)
      = some (FontCompressor.setCompressedSize c1exDb1 1) from rfl] at hdec
  have hdb := Option.some.inj hdec
  rw [← hdb] at hsize
  rw [show (FontCompressor.setCompressedSize
      c1exDb1 1).metadata.compressed_size_bytes = 1 from rfl] at hsize
  rw [show (FontCompressor.compress_font_database ⟨11, true⟩ c1exSer
      c1exCompress [] [] [] false).length = 2 from rfl] at hsize
  exact absurd hsize (by decide)
